import Mathlib

set_option maxHeartbeats 1000000
set_option maxRecDepth 4000

/-!
Verification of the graphverb spectral-reverb pipeline against its
specification.  The C++ sources are shallowly embedded: float scalars are
modelled as rationals (exact arithmetic) or reals where transcendental
functions appear, C++ ints as integers, std vectors as lists.  The
transcendental float distance metric of CommunityClustering.cpp is kept as
an abstract parameter, so every theorem about the clustering control flow
holds for each possible realisation of it.
-/

/-- Node of the spectral graph (GraphNode.h): one node per FFT bin. -/
structure GraphNode where
  index : ℤ
  frequency : ℚ
  magnitude : ℚ
deriving DecidableEq

instance : Inhabited GraphNode := ⟨⟨0, 0, 0⟩⟩

/-- Cluster representative (Centroid.h). -/
structure Centroid where
  frequency : ℚ
  magnitude : ℚ
deriving DecidableEq

instance : Inhabited Centroid := ⟨⟨0, 0⟩⟩

/-- Edge of the spectral graph (GraphEdge.h). -/
structure GraphEdge where
  nodeA : ℤ
  nodeB : ℤ
  weight : ℚ
deriving DecidableEq

instance : Inhabited GraphEdge := ⟨⟨0, 0, 0⟩⟩

/-- Inner loop of the assignment step of CommunityClustering.clusterNodes
(CommunityClustering.cpp lines 38 to 44): scan the remaining centroids with
running index j, keeping the pair of best cluster index and best distance,
replacing it only on a strictly smaller distance.  The function d models the
distance from the node under consideration to a centroid. -/
def assignLoop (d : Centroid → ℚ) : List Centroid → ℕ → ℕ × ℚ → ℕ × ℚ
  | [], _, best => best
  | c :: cs, j, best =>
    if d c < best.2 then assignLoop d cs (j + 1) (j, d c)
    else assignLoop d cs (j + 1) best

/-- Assignment of one node (CommunityClustering.cpp lines 35 to 44): start
from cluster 0 with its distance and scan the remaining centroids. -/
def bestCluster (d : GraphNode → Centroid → ℚ) (node : GraphNode) :
    List Centroid → ℕ
  | [] => 0
  | c0 :: cs => (assignLoop (d node) cs 1 (0, d node c0)).1

/-- Centroid initialisation (CommunityClustering.cpp lines 23 to 28):
centroid i is seeded from the attributes of the node at index i mod n. -/
def initCentroids (nodes : List GraphNode) (k : ℕ) : List Centroid :=
  (List.range k).map fun i =>
    let nd := nodes.getD (i % nodes.length) default
    ⟨nd.frequency, nd.magnitude⟩

/-- Members of cluster j under a given assignment vector, pairing each node
with its assignment (models the accumulation loop of CommunityClustering.cpp
lines 55 to 60). -/
def membersOf (nodes : List GraphNode) (assignments : List ℕ) (j : ℕ) :
    List GraphNode :=
  ((nodes.zip assignments).filter fun p => p.2 == j).map Prod.fst

/-- Update step (CommunityClustering.cpp lines 52 to 75): each centroid
becomes the componentwise mean of its members; a cluster with no members is
reseeded from the node picked by the random source rng, which models the
std random device draw of lines 69 to 73. -/
def updateCentroids (rng : ℕ → ℕ) (nodes : List GraphNode)
    (assignments : List ℕ) (k : ℕ) : List Centroid :=
  (List.range k).map fun j =>
    let ms := membersOf nodes assignments j
    if 0 < ms.length then
      ⟨(ms.map GraphNode.frequency).sum / (ms.length : ℚ),
       (ms.map GraphNode.magnitude).sum / (ms.length : ℚ)⟩
    else
      let nd := nodes.getD (rng j % nodes.length) default
      ⟨nd.frequency, nd.magnitude⟩

/-- Main loop of clusterNodes (CommunityClustering.cpp lines 30 to 79).
The fuel argument is the remaining iteration budget; the loop stops when no
assignment changed or the budget is exhausted.  The rng argument supplies
the random reseeding index for a given iteration and cluster. -/
def kmeansLoop (d : GraphNode → Centroid → ℚ) (rng : ℕ → ℕ → ℕ)
    (nodes : List GraphNode) (k : ℕ) :
    ℕ → ℕ → List ℕ → List Centroid → List ℕ
  | 0, _, assignments, _ => assignments
  | fuel + 1, iter, assignments, centroids =>
    let newAssignments := nodes.map fun nd => bestCluster d nd centroids
    if newAssignments = assignments then assignments
    else
      kmeansLoop d rng nodes k fuel (iter + 1) newAssignments
        (updateCentroids (rng iter) nodes newAssignments k)

/-- CommunityClustering.clusterNodes (CommunityClustering.cpp lines 14 to
82).  The distance function d abstracts the float distanceSquared of lines
87 to 99 and rng abstracts the random reseeding source; the result is the
cluster assignment vector, one entry per node. -/
def clusterNodes (d : GraphNode → Centroid → ℚ) (rng : ℕ → ℕ → ℕ)
    (nodes : List GraphNode) (k : ℤ) (maxIterations : ℤ) : List ℕ :=
  let n := nodes.length
  let assignments : List ℕ := List.replicate n 0
  if n = 0 ∨ k ≤ 0 then assignments
  else
    kmeansLoop d rng nodes k.toNat maxIterations.toNat 0 assignments
      (initCentroids nodes k.toNat)

theorem assignLoop_spec (d : Centroid → ℚ) :
    ∀ (cs : List Centroid) (j : ℕ) (best : ℕ × ℚ), best.1 < j →
      (assignLoop d cs j best).2 ≤ best.2 ∧
      (∀ i, i < cs.length →
        (assignLoop d cs j best).2 ≤ d (cs.getD i default)) ∧
      ((assignLoop d cs j best).1 = best.1 ∧
          (assignLoop d cs j best).2 = best.2 ∨
        ∃ i, i < cs.length ∧ (assignLoop d cs j best).1 = j + i ∧
          (assignLoop d cs j best).2 = d (cs.getD i default)) ∧
      (∀ i, i < cs.length → j + i < (assignLoop d cs j best).1 →
        (assignLoop d cs j best).2 < d (cs.getD i default)) ∧
      (best.1 < (assignLoop d cs j best).1 →
        (assignLoop d cs j best).2 < best.2) := by
  intro cs
  induction cs with
  | nil =>
    intro j best hbj
    refine ⟨le_refl _, ?_, Or.inl ⟨rfl, rfl⟩, ?_, ?_⟩
    · intro i hi; exact absurd hi (by simp)
    · intro i hi; exact absurd hi (by simp)
    · intro h; exact absurd h (lt_irrefl _)
  | cons c cs ih =>
    intro j best hbj
    by_cases h : d c < best.2
    · have heq : assignLoop d (c :: cs) j best =
          assignLoop d cs (j + 1) (j, d c) := by
        simp [assignLoop, h]
      obtain ⟨ih1, ih2, ih3, ih4, ih5⟩ :=
        ih (j + 1) (j, d c) (Nat.lt_succ_self j)
      rw [heq]
      refine ⟨le_of_lt (lt_of_le_of_lt ih1 h), ?_, ?_, ?_, ?_⟩
      · intro i hi
        cases i with
        | zero => simpa using ih1
        | succ i => simpa using ih2 i (by simpa using hi)
      · rcases ih3 with ⟨h1, h2⟩ | ⟨i, hi, h1, h2⟩
        · exact Or.inr ⟨0, by simp, by simpa using h1, by simpa using h2⟩
        · exact Or.inr ⟨i + 1, by simpa using hi,
            by omega, by simpa using h2⟩
      · intro i hi hlt
        cases i with
        | zero =>
          have := ih5 (by simpa using hlt)
          simpa using this
        | succ i =>
          have : (j + 1) + i < (assignLoop d cs (j + 1) (j, d c)).1 := by
            omega
          simpa using ih4 i (by simpa using hi) this
      · intro _
        exact lt_of_le_of_lt ih1 h
    · have heq : assignLoop d (c :: cs) j best =
          assignLoop d cs (j + 1) best := by
        simp [assignLoop, h]
      have hle : best.2 ≤ d c := le_of_not_lt h
      obtain ⟨ih1, ih2, ih3, ih4, ih5⟩ :=
        ih (j + 1) best (Nat.lt_succ_of_lt hbj)
      rw [heq]
      refine ⟨ih1, ?_, ?_, ?_, ih5⟩
      · intro i hi
        cases i with
        | zero => simpa using le_trans ih1 hle
        | succ i => simpa using ih2 i (by simpa using hi)
      · rcases ih3 with ⟨h1, h2⟩ | ⟨i, hi, h1, h2⟩
        · exact Or.inl ⟨h1, h2⟩
        · exact Or.inr ⟨i + 1, by simpa using hi, by omega,
            by simpa using h2⟩
      · intro i hi hlt
        cases i with
        | zero =>
          have hb : best.1 < (assignLoop d cs (j + 1) best).1 := by
            simpa using lt_trans hbj (by simpa using hlt)
          exact lt_of_lt_of_le (ih5 hb) (by simpa using hle)
        | succ i =>
          have : (j + 1) + i < (assignLoop d cs (j + 1) best).1 := by omega
          simpa using ih4 i (by simpa using hi) this

/-- Specification of the per node assignment: the chosen cluster is in
range, attains the minimum distance, and every strictly smaller index has a
strictly larger distance (ties go to the lowest index). -/
theorem bestCluster_spec (d : GraphNode → Centroid → ℚ) (nd : GraphNode)
    (centroids : List Centroid) (h : centroids ≠ []) :
    bestCluster d nd centroids < centroids.length ∧
    (∀ i, i < centroids.length →
      d nd (centroids.getD (bestCluster d nd centroids) default) ≤
        d nd (centroids.getD i default)) ∧
    ∀ i, i < bestCluster d nd centroids →
      d nd (centroids.getD (bestCluster d nd centroids) default) <
        d nd (centroids.getD i default) := by
  match centroids with
  | [] => exact absurd rfl h
  | c0 :: cs =>
    obtain ⟨s1, s2, s3, s4, s5⟩ :=
      assignLoop_spec (d nd) cs 1 (0, d nd c0) Nat.one_pos
    set r := (assignLoop (d nd) cs 1 (0, d nd c0)).1 with hr
    have hbc : bestCluster d nd (c0 :: cs) = r := rfl
    have hrlt : r < (c0 :: cs).length := by
      rcases s3 with ⟨h1, _⟩ | ⟨i, hi, h1, _⟩
      · simp at h1
        simp [h1]
      · simp only [List.length_cons]
        omega
    have hv : (assignLoop (d nd) cs 1 (0, d nd c0)).2 =
        d nd ((c0 :: cs).getD r default) := by
      rcases s3 with ⟨h1, h2⟩ | ⟨i, hi, h1, h2⟩
      · simp at h1
        rw [h1]
        simpa using h2
      · rw [h1, Nat.add_comm]
        simpa using h2
    refine ⟨by rw [hbc]; exact hrlt, ?_, ?_⟩
    · intro i hi
      rw [hbc, ← hv]
      cases i with
      | zero => simpa using s1
      | succ i => simpa using s2 i (by simpa using hi)
    · intro i hi
      rw [hbc] at hi
      rw [hbc, ← hv]
      cases i with
      | zero =>
        simpa using s5 (by simpa using hi)
      | succ i =>
        have hlen : i < cs.length := by
          rcases s3 with ⟨h1, _⟩ | ⟨i', hi', h1, _⟩
          · simp at h1
            omega
          · omega
        have h1i : 1 + i < r := by omega
        simpa using s4 i hlen h1i

theorem bestCluster_lt (d : GraphNode → Centroid → ℚ) (nd : GraphNode)
    (centroids : List Centroid) (h : centroids ≠ []) :
    bestCluster d nd centroids < centroids.length :=
  (bestCluster_spec d nd centroids h).1

theorem updateCentroids_length (rng : ℕ → ℕ) (nodes : List GraphNode)
    (assignments : List ℕ) (k : ℕ) :
    (updateCentroids rng nodes assignments k).length = k := by
  simp [updateCentroids]

theorem kmeansLoop_invariant (d : GraphNode → Centroid → ℚ)
    (rng : ℕ → ℕ → ℕ) (nodes : List GraphNode) (k : ℕ) (hk : 0 < k) :
    ∀ (fuel iter : ℕ) (assignments : List ℕ) (centroids : List Centroid),
      assignments.length = nodes.length → (∀ e ∈ assignments, e < k) →
      centroids.length = k →
      (kmeansLoop d rng nodes k fuel iter assignments centroids).length =
          nodes.length ∧
      ∀ e ∈ kmeansLoop d rng nodes k fuel iter assignments centroids,
        e < k := by
  intro fuel
  induction fuel with
  | zero =>
    intro iter assignments centroids hlen hmem _
    exact ⟨hlen, hmem⟩
  | succ fuel ih =>
    intro iter assignments centroids hlen hmem hclen
    have hcne : centroids ≠ [] := by
      intro hnil
      rw [hnil] at hclen
      simp at hclen
      omega
    by_cases hch :
        (nodes.map fun nd => bestCluster d nd centroids) = assignments
    · have heq : kmeansLoop d rng nodes k (fuel + 1) iter assignments
          centroids = assignments := by
        simp [kmeansLoop, hch]
      rw [heq]
      exact ⟨hlen, hmem⟩
    · have heq : kmeansLoop d rng nodes k (fuel + 1) iter assignments
          centroids =
          kmeansLoop d rng nodes k fuel (iter + 1)
            (nodes.map fun nd => bestCluster d nd centroids)
            (updateCentroids (rng iter) nodes
              (nodes.map fun nd => bestCluster d nd centroids) k) := by
        simp only [kmeansLoop]
        rw [if_neg hch]
      rw [heq]
      apply ih
      · simp
      · intro e he
        obtain ⟨nd, _, hnd⟩ := List.mem_map.mp he
        rw [← hnd, ← hclen]
        exact bestCluster_lt d nd centroids hcne
      · exact updateCentroids_length _ _ _ _

/-- C1: for every node list of size n greater than 0 and every k greater
than 0, clusterNodes returns an assignment vector of length exactly n in
which every entry lies in the interval from 0 inclusive to k exclusive;
each node is assigned exactly one cluster.  The statement holds for every
realisation d of the float distance metric and every random source rng. -/
theorem clusterNodes_length_and_range (d : GraphNode → Centroid → ℚ)
    (rng : ℕ → ℕ → ℕ) (nodes : List GraphNode) (k maxIterations : ℤ)
    (hn : 0 < nodes.length) (hk : 0 < k) :
    (clusterNodes d rng nodes k maxIterations).length = nodes.length ∧
    ∀ e ∈ clusterNodes d rng nodes k maxIterations,
      (0 : ℤ) ≤ (e : ℤ) ∧ (e : ℤ) < k := by
  have hcond : ¬(nodes.length = 0 ∨ k ≤ 0) := by
    push_neg
    exact ⟨by omega, by omega⟩
  have heq : clusterNodes d rng nodes k maxIterations =
      kmeansLoop d rng nodes k.toNat maxIterations.toNat 0
        (List.replicate nodes.length 0) (initCentroids nodes k.toNat) := by
    simp only [clusterNodes]
    rw [if_neg hcond]
  have hktn : 0 < k.toNat := by omega
  obtain ⟨h1, h2⟩ := kmeansLoop_invariant d rng nodes k.toNat hktn
    maxIterations.toNat 0 (List.replicate nodes.length 0)
    (initCentroids nodes k.toNat)
    (by simp)
    (by intro e he; have := List.eq_of_mem_replicate he; omega)
    (by simp [initCentroids])
  rw [heq]
  refine ⟨h1, ?_⟩
  intro e he
  have := h2 e he
  constructor
  · exact Int.ofNat_nonneg e
  · omega

theorem clusterNodes_length_and_range_witness :
    (clusterNodes (fun _ _ => 0) (fun _ _ => 0) [⟨0, 0, 0⟩] 2 3).length = 1 ∧
    ∀ e ∈ clusterNodes (fun _ _ => 0) (fun _ _ => 0) [⟨0, 0, 0⟩] 2 3,
      (0 : ℤ) ≤ (e : ℤ) ∧ (e : ℤ) < 2 := by
  have h := clusterNodes_length_and_range (fun _ _ => 0) (fun _ _ => 0)
    [⟨0, 0, 0⟩] 2 3 (by decide) (by decide)
  simpa using h

/-- C8: for degenerate inputs, an empty node list or a non positive cluster
count, clusterNodes returns the initial all zero vector of length n at
once, without entering the iteration loop. -/
theorem clusterNodes_degenerate (d : GraphNode → Centroid → ℚ)
    (rng : ℕ → ℕ → ℕ) (nodes : List GraphNode) (k maxIterations : ℤ)
    (h : nodes.length = 0 ∨ k ≤ 0) :
    clusterNodes d rng nodes k maxIterations =
      List.replicate nodes.length 0 := by
  simp only [clusterNodes]
  rw [if_pos h]

theorem clusterNodes_degenerate_witness :
    clusterNodes (fun _ _ => 0) (fun _ _ => 0) [⟨0, 0, 0⟩] 0 100 =
      List.replicate 1 0 := by
  have h := clusterNodes_degenerate (fun _ _ => 0) (fun _ _ => 0)
    [⟨0, 0, 0⟩] 0 100 (Or.inr (by decide))
  simpa using h

/-- C7: centroid j is initialised from the attributes of the node at index
j mod n, hence for k at most n the first k nodes seed the k centroids
directly; and in the assignment step every node goes to the centroid of
minimal squared distance, ties broken toward the lowest cluster index since
the code compares with strict less than. -/
theorem clusterNodes_init_and_argmin (d : GraphNode → Centroid → ℚ)
    (nodes : List GraphNode) (k : ℕ) (hn : 0 < nodes.length) :
    (∀ j, j < k → (initCentroids nodes k).getD j default =
      ⟨(nodes.getD (j % nodes.length) default).frequency,
       (nodes.getD (j % nodes.length) default).magnitude⟩) ∧
    (∀ j, j < k → k ≤ nodes.length →
      (initCentroids nodes k).getD j default =
      ⟨(nodes.getD j default).frequency,
       (nodes.getD j default).magnitude⟩) ∧
    ∀ (nd : GraphNode) (centroids : List Centroid), centroids ≠ [] →
      bestCluster d nd centroids < centroids.length ∧
      (∀ i, i < centroids.length →
        d nd (centroids.getD (bestCluster d nd centroids) default) ≤
          d nd (centroids.getD i default)) ∧
      ∀ i, i < bestCluster d nd centroids →
        d nd (centroids.getD (bestCluster d nd centroids) default) <
          d nd (centroids.getD i default) := by
  have hinit : ∀ j, j < k → (initCentroids nodes k).getD j default =
      ⟨(nodes.getD (j % nodes.length) default).frequency,
       (nodes.getD (j % nodes.length) default).magnitude⟩ := by
    intro j hj
    simp [initCentroids, List.getD_eq_getElem?_getD, List.getElem?_map,
      List.getElem?_range, hj]
  refine ⟨hinit, ?_, ?_⟩
  · intro j hj hkn
    have hmod : j % nodes.length = j := Nat.mod_eq_of_lt (by omega)
    have := hinit j hj
    rw [hmod] at this
    exact this
  · intro nd centroids hne
    exact bestCluster_spec d nd centroids hne

theorem clusterNodes_init_and_argmin_witness :
    ((∀ j, j < 1 → (initCentroids [⟨0, 0, 0⟩] 1).getD j default =
      ⟨(([⟨0, 0, 0⟩] : List GraphNode).getD
          (j % ([⟨0, 0, 0⟩] : List GraphNode).length) default).frequency,
       (([⟨0, 0, 0⟩] : List GraphNode).getD
          (j % ([⟨0, 0, 0⟩] : List GraphNode).length) default).magnitude⟩) ∧
    (∀ j, j < 1 → 1 ≤ ([⟨0, 0, 0⟩] : List GraphNode).length →
      (initCentroids [⟨0, 0, 0⟩] 1).getD j default =
      ⟨(([⟨0, 0, 0⟩] : List GraphNode).getD j default).frequency,
       (([⟨0, 0, 0⟩] : List GraphNode).getD j default).magnitude⟩) ∧
    ∀ (nd : GraphNode) (centroids : List Centroid), centroids ≠ [] →
      bestCluster (fun _ _ => 0) nd centroids < centroids.length ∧
      (∀ i, i < centroids.length →
        (fun (_ : GraphNode) (_ : Centroid) => (0 : ℚ)) nd
            (centroids.getD (bestCluster (fun _ _ => 0) nd centroids)
              default) ≤
          (fun (_ : GraphNode) (_ : Centroid) => (0 : ℚ)) nd
            (centroids.getD i default)) ∧
      ∀ i, i < bestCluster (fun _ _ => 0) nd centroids →
        (fun (_ : GraphNode) (_ : Centroid) => (0 : ℚ)) nd
            (centroids.getD (bestCluster (fun _ _ => 0) nd centroids)
              default) <
          (fun (_ : GraphNode) (_ : Centroid) => (0 : ℚ)) nd
            (centroids.getD i default)) :=
  clusterNodes_init_and_argmin (fun _ _ => 0) [⟨0, 0, 0⟩] 1 (by decide)

/-- State of the SpectralAnalyzer relevant to framing (SpectralAnalyzer.h):
configured sizes as C++ ints, the fill level of the time domain FIFO, the
FIFO contents, and the number of frames processed since the last reset.
The float windowing and FFT inside processFrame produce data that no claim
touches; processFrame is recorded as one increment of the frame counter. -/
structure AnalyzerState where
  fftSize : ℤ
  hopSize : ℤ
  fifoFill : ℤ
  fifoBuffer : List ℚ
  framesCompleted : ℕ
deriving DecidableEq

/-- Constructor (SpectralAnalyzer.cpp lines 12 to 24): fftSize is two to
the fftOrder, and a non positive hop size argument is replaced by
fftSize / 2; the FIFO starts zeroed.  A negative fftOrder would be
undefined behaviour of the C++ shift, so the order is a natural number. -/
def mkAnalyzer (fftOrder : ℕ) (hopSizeIn : ℤ) : AnalyzerState :=
  { fftSize := 2 ^ fftOrder
    hopSize := if 0 < hopSizeIn then hopSizeIn else 2 ^ fftOrder / 2
    fifoFill := 0
    fifoBuffer := List.replicate (2 ^ fftOrder) 0
    framesCompleted := 0 }

/-- SpectralAnalyzer.reset (SpectralAnalyzer.cpp lines 61 to 66): zero the
fill count and the FIFO and clear the latest result, so the frame counter
restarts from zero. -/
def resetAnalyzer (st : AnalyzerState) : AnalyzerState :=
  { st with
    fifoFill := 0
    fifoBuffer := List.replicate st.fifoBuffer.length 0
    framesCompleted := 0 }

/-- Effect of the std copy_n call of SpectralAnalyzer.cpp lines 41 to 42:
overwrite the buffer at offset fill with the chunk. -/
def copyIntoFifo (buf : List ℚ) (fill : ℕ) (chunk : List ℚ) : List ℚ :=
  buf.take fill ++ chunk ++ buf.drop (fill + chunk.length)

/-- Effect of the std copy call of SpectralAnalyzer.cpp lines 51 to 52:
shift the buffer left by hop positions; the last hop positions keep their
old values. -/
def shiftFifo (buf : List ℚ) (hop : ℕ) : List ℚ :=
  buf.drop hop ++ buf.drop (buf.length - hop)

/-- One iteration of the while loop of SpectralAnalyzer.pushSamples
(SpectralAnalyzer.cpp lines 37 to 55): copy as many samples as fit, then
process a frame and shift if the FIFO became full.  Returns the new state
and the new input index. -/
def pushStep (st : AnalyzerState) (input : List ℚ)
    (index numSamples : ℤ) : AnalyzerState × ℤ :=
  let samplesToCopy := min (numSamples - index) (st.fftSize - st.fifoFill)
  let chunk := (input.drop index.toNat).take samplesToCopy.toNat
  let buf := copyIntoFifo st.fifoBuffer st.fifoFill.toNat chunk
  let fill := st.fifoFill + samplesToCopy
  if fill = st.fftSize then
    ({ st with
        fifoBuffer := shiftFifo buf st.hopSize.toNat
        fifoFill := fill - st.hopSize
        framesCompleted := st.framesCompleted + 1 }, index + samplesToCopy)
  else
    ({ st with fifoBuffer := buf, fifoFill := fill }, index + samplesToCopy)

/-- The while loop of SpectralAnalyzer.pushSamples with an explicit fuel
bound on the number of iterations; none models a run that does not finish
within the given fuel. -/
def pushLoop (input : List ℚ) (numSamples : ℤ) :
    ℕ → AnalyzerState → ℤ → Option AnalyzerState
  | 0, st, index => if index < numSamples then none else some st
  | fuel + 1, st, index =>
    if index < numSamples then
      pushLoop input numSamples fuel (pushStep st input index numSamples).1
        (pushStep st input index numSamples).2
    else some st

/-- SpectralAnalyzer.pushSamples (SpectralAnalyzer.cpp lines 35 to 56).
The fuel numSamples plus one is enough under the analyzer invariants, as
proved below; a result of none would mean the loop did not finish. -/
def pushSamples (st : AnalyzerState) (input : List ℚ)
    (numSamples : ℤ) : Option AnalyzerState :=
  pushLoop input numSamples (numSamples.toNat + 1) st 0

theorem pushStep_spec (st : AnalyzerState) (input : List ℚ)
    (index numSamples : ℤ) (h1 : 0 < st.hopSize)
    (h2 : st.hopSize ≤ st.fftSize) (h3 : 0 ≤ st.fifoFill)
    (h4 : st.fifoFill < st.fftSize) (hidx : index < numSamples) :
    (pushStep st input index numSamples).1.hopSize = st.hopSize ∧
    (pushStep st input index numSamples).1.fftSize = st.fftSize ∧
    0 ≤ (pushStep st input index numSamples).1.fifoFill ∧
    (pushStep st input index numSamples).1.fifoFill < st.fftSize ∧
    index + 1 ≤ (pushStep st input index numSamples).2 := by
  simp only [pushStep]
  split
  · refine ⟨rfl, rfl, ?_, ?_, ?_⟩ <;> simp only [] <;> omega
  · refine ⟨rfl, rfl, ?_, ?_, ?_⟩ <;> simp only [] <;> omega

theorem pushLoop_total (input : List ℚ) (numSamples : ℤ) :
    ∀ (fuel : ℕ) (st : AnalyzerState) (index : ℤ),
      0 < st.hopSize → st.hopSize ≤ st.fftSize →
      0 ≤ st.fifoFill → st.fifoFill < st.fftSize →
      numSamples - index ≤ fuel →
      ∃ st2, pushLoop input numSamples fuel st index = some st2 := by
  intro fuel
  induction fuel with
  | zero =>
    intro st index _ _ _ _ hf
    refine ⟨st, ?_⟩
    simp only [pushLoop]
    rw [if_neg (by omega)]
  | succ fuel ih =>
    intro st index h1 h2 h3 h4 hf
    by_cases hidx : index < numSamples
    · obtain ⟨p1, p2, p3, p4, p5⟩ :=
        pushStep_spec st input index numSamples h1 h2 h3 h4 hidx
      have heq : pushLoop input numSamples (fuel + 1) st index =
          pushLoop input numSamples fuel
            (pushStep st input index numSamples).1
            (pushStep st input index numSamples).2 := by
        simp only [pushLoop]
        rw [if_pos hidx]
      rw [heq]
      exact ih _ _ (by rw [p1]; exact h1) (by rw [p1, p2]; exact h2) p3
        (by rw [p2]; exact p4) (by omega)
    · refine ⟨st, ?_⟩
      simp only [pushLoop]
      rw [if_neg hidx]

theorem mkAnalyzer_hop_facts (ord : ℕ) (hin : ℤ) (hord : 1 ≤ ord)
    (hle : hin ≤ 2 ^ ord) :
    0 < (mkAnalyzer ord hin).hopSize ∧
    (mkAnalyzer ord hin).hopSize ≤ (mkAnalyzer ord hin).fftSize := by
  have hpow : (2 : ℤ) ^ ord = 2 * 2 ^ (ord - 1) := by
    conv_lhs => rw [show ord = (ord - 1) + 1 by omega]
    ring
  have hp0 : (0 : ℤ) < 2 ^ (ord - 1) := pow_pos (by norm_num) _
  have hdiv : (2 : ℤ) ^ ord / 2 = 2 ^ (ord - 1) := by
    rw [hpow]
    exact Int.mul_ediv_cancel_left _ (by norm_num)
  simp only [mkAnalyzer]
  split
  · constructor <;> omega
  · rw [hdiv]
    constructor <;> omega

/-- The analyzer as constructed by both plugin variants, fftOrder 10 and
hop size 512 (Graphverb.cpp line 14), after a reset: the C3 scenario. -/
def freshAnalyzer : AnalyzerState := resetAnalyzer (mkAnalyzer 10 512)

/-- Push one chunk of 512 zero samples, propagating a fuel failure. -/
def pushHopChunk (o : Option AnalyzerState) : Option AnalyzerState :=
  o.bind fun st => pushSamples st (List.replicate 512 0) 512

/-- Number of completed frames after m pushes of exactly hopSize samples
each into a freshly reset analyzer. -/
def framesAfter (m : ℕ) : Option ℕ :=
  (pushHopChunk^[m] (some freshAnalyzer)).map AnalyzerState.framesCompleted

theorem pushStep_fresh (f : ℕ) :
    pushStep ⟨1024, 512, 0, List.replicate 1024 0, f⟩
        (List.replicate 512 0) 0 512 =
      (⟨1024, 512, 512, List.replicate 1024 0, f⟩, 512) := by
  simp only [pushStep]
  norm_num
  simp only [copyIntoFifo, List.take_zero, List.nil_append,
    List.length_replicate, List.drop_replicate]
  norm_num [← List.replicate_add]

theorem pushStep_full (f : ℕ) :
    pushStep ⟨1024, 512, 512, List.replicate 1024 0, f⟩
        (List.replicate 512 0) 0 512 =
      (⟨1024, 512, 512, List.replicate 1024 0, f + 1⟩, 512) := by
  simp only [pushStep]
  norm_num
  simp only [copyIntoFifo, shiftFifo, List.take_replicate,
    List.length_replicate, List.drop_replicate, List.length_append]
  norm_num [← List.replicate_add]
  omega

theorem pushLoop_succ (input : List ℚ) (numSamples : ℤ) (fuel : ℕ)
    (st : AnalyzerState) (index : ℤ) :
    pushLoop input numSamples (fuel + 1) st index =
      if index < numSamples then
        pushLoop input numSamples fuel (pushStep st input index numSamples).1
          (pushStep st input index numSamples).2
      else some st := rfl

theorem pushSamples_fresh_first (f : ℕ) :
    pushSamples ⟨1024, 512, 0, List.replicate 1024 0, f⟩
        (List.replicate 512 0) 512 =
      some ⟨1024, 512, 512, List.replicate 1024 0, f⟩ := by
  unfold pushSamples
  rw [pushLoop_succ, if_pos (by norm_num : (0 : ℤ) < 512)]
  simp only [pushStep_fresh]
  rw [show Int.toNat 512 = 511 + 1 from rfl]
  rw [pushLoop_succ, if_neg (by norm_num : ¬((512 : ℤ) < 512))]

theorem pushSamples_hop_again (f : ℕ) :
    pushSamples ⟨1024, 512, 512, List.replicate 1024 0, f⟩
        (List.replicate 512 0) 512 =
      some ⟨1024, 512, 512, List.replicate 1024 0, f + 1⟩ := by
  unfold pushSamples
  rw [pushLoop_succ, if_pos (by norm_num : (0 : ℤ) < 512)]
  simp only [pushStep_full]
  rw [show Int.toNat 512 = 511 + 1 from rfl]
  rw [pushLoop_succ, if_neg (by norm_num : ¬((512 : ℤ) < 512))]

theorem pushHopChunk_iterate (m : ℕ) :
    ∀ f : ℕ,
      pushHopChunk^[m] (some ⟨1024, 512, 512, List.replicate 1024 0, f⟩) =
        some ⟨1024, 512, 512, List.replicate 1024 0, f + m⟩ := by
  induction m with
  | zero => intro f; simp
  | succ m ih =>
    intro f
    rw [Function.iterate_succ_apply]
    have hstep :
        pushHopChunk (some ⟨1024, 512, 512, List.replicate 1024 0, f⟩) =
          some ⟨1024, 512, 512, List.replicate 1024 0, f + 1⟩ :=
      pushSamples_hop_again f
    rw [hstep, ih (f + 1), show f + 1 + m = f + (m + 1) by omega]

theorem freshAnalyzer_eq :
    freshAnalyzer = ⟨1024, 512, 0, List.replicate 1024 0, 0⟩ := by
  simp only [freshAnalyzer, resetAnalyzer, mkAnalyzer, List.length_replicate]
  norm_num

/-- C3 (amended): pushing exactly hopSize samples at a time into a freshly
reset analyzer with fftSize 1024 and hopSize 512, the first frame completes
on the second push and every later push completes exactly one more frame,
so after m pushes exactly m - 1 frames have completed. -/
theorem framesAfter_eq (m : ℕ) (h : 1 ≤ m) :
    framesAfter m = some (m - 1) := by
  obtain ⟨m2, rfl⟩ : ∃ m2, m = m2 + 1 := ⟨m - 1, by omega⟩
  unfold framesAfter
  rw [Function.iterate_succ_apply]
  have h1 : pushHopChunk (some freshAnalyzer) =
      some ⟨1024, 512, 512, List.replicate 1024 0, 0⟩ := by
    rw [freshAnalyzer_eq]
    exact pushSamples_fresh_first 0
  rw [h1, pushHopChunk_iterate]
  simp

theorem framesAfter_eq_witness : framesAfter 2 = some 1 := by
  have h := framesAfter_eq 2 (by decide)
  simpa using h

/-- C3 counterexample to the claim as stated: one new frame per two pushes
would give two frames after four pushes of 512 samples, but the analyzer
has completed three frames, one on every push after the first. -/
theorem framesAfter_counterexample :
    framesAfter 4 = some 3 ∧ framesAfter 4 ≠ some 2 := by
  have h4 : framesAfter 4 = some 3 := by
    unfold framesAfter
    rw [show (4 : ℕ) = 3 + 1 from rfl, Function.iterate_succ_apply]
    have h1 : pushHopChunk (some freshAnalyzer) =
        some ⟨1024, 512, 512, List.replicate 1024 0, 0⟩ := by
      rw [freshAnalyzer_eq]
      exact pushSamples_fresh_first 0
    rw [h1, pushHopChunk_iterate]
    simp
  exact ⟨h4, by rw [h4]; simp⟩

/-- C10 (amended): pushSamples finishes within the fuel bound for every
finite input chunk whenever hopSize is positive and at most fftSize and
the FIFO fill is in range, as reset establishes; the constructor makes
hopSize positive and at most fftSize for every order of at least one and
every hop size argument at most fftSize, replacing a non positive argument
by fftSize / 2.  The constructor alone does not bound hopSize by fftSize
for larger arguments, see the counterexample. -/
theorem pushSamples_terminates (st : AnalyzerState) (input : List ℚ)
    (numSamples : ℤ) (h1 : 0 < st.hopSize) (h2 : st.hopSize ≤ st.fftSize)
    (h3 : 0 ≤ st.fifoFill) (h4 : st.fifoFill < st.fftSize) :
    (∃ st2, pushSamples st input numSamples = some st2) ∧
    ∀ (ord : ℕ) (hin : ℤ), 1 ≤ ord → hin ≤ 2 ^ ord →
      0 < (mkAnalyzer ord hin).hopSize ∧
      (mkAnalyzer ord hin).hopSize ≤ (mkAnalyzer ord hin).fftSize := by
  constructor
  · exact pushLoop_total input numSamples (numSamples.toNat + 1) st 0 h1 h2
      h3 h4 (by omega)
  · intro ord hin h5 h6
    exact mkAnalyzer_hop_facts ord hin h5 h6

theorem pushSamples_terminates_witness :
    (∃ st2, pushSamples freshAnalyzer [1, 2, 3] 3 = some st2) ∧
    ∀ (ord : ℕ) (hin : ℤ), 1 ≤ ord → hin ≤ 2 ^ ord →
      0 < (mkAnalyzer ord hin).hopSize ∧
      (mkAnalyzer ord hin).hopSize ≤ (mkAnalyzer ord hin).fftSize :=
  pushSamples_terminates freshAnalyzer [1, 2, 3] 3 (by decide) (by decide)
    (by decide) (by decide)

/-- C10 counterexample to the constructor part of the claim: with hop size
argument 2048 the constructed hop size exceeds fftSize 1024, so the
precondition that hopSize is at most fftSize is not established by the
constructor; and with fftOrder 0 a non positive hop size argument is
replaced by fftSize / 2 = 0, which is not positive. -/
theorem mkAnalyzer_counterexample :
    ¬((mkAnalyzer 10 2048).hopSize ≤ (mkAnalyzer 10 2048).fftSize) ∧
    ¬(0 < (mkAnalyzer 0 (-1)).hopSize) := by
  constructor
  · decide
  · decide

/-- Rounding as std lround: nearest integer with halves away from zero. -/
def lroundQ (x : ℚ) : ℤ :=
  if 0 ≤ x then ⌊x + 1 / 2⌋ else -⌊-x + 1 / 2⌋

/-- Graph container (SpectralGraph.h lines 29 to 35): the node and edge
vectors of the spectral graph. -/
structure SpectralGraph where
  nodes : List GraphNode
  edges : List GraphEdge
deriving DecidableEq

/-- Node creation loop of buildGraph (SpectralGraph.h lines 53 to 60): one
node per magnitude bin, node i at frequency i times the bin resolution and
carrying magnitude i. -/
def buildNodes (magnitudes : List ℚ) (binResolution : ℚ) : List GraphNode :=
  (List.range magnitudes.length).map fun (i : ℕ) =>
    ⟨(i : ℤ), (i : ℚ) * binResolution, magnitudes.getD i 0⟩

/-- Neighbor edge loop of buildGraph (SpectralGraph.h lines 62 to 74):
edge from node i to node i + 1 with weight expf of minus the absolute
magnitude difference.  The function expf models the float std exp. -/
def neighborEdges (expf : ℚ → ℚ) (nodes : List GraphNode) : List GraphEdge :=
  (List.range (nodes.length - 1)).map fun (i : ℕ) =>
    ⟨(i : ℤ), (i : ℤ) + 1,
     expf (-|(nodes.getD i default).magnitude -
             (nodes.getD (i + 1) default).magnitude|)⟩

/-- Body of the harmonic loop of buildGraph for one node and one harmonic
(SpectralGraph.h lines 82 to 98): the edge to the bin nearest h times the
node frequency, present exactly when the rounded target index is less than
the node count. -/
def harmonicEdgeOpt (expf : ℚ → ℚ) (nodes : List GraphNode) (res : ℚ)
    (i : ℕ) (h : ℚ) : Option GraphEdge :=
  let targetFreq := (nodes.getD i default).frequency * h
  let targetIndex := lroundQ (targetFreq / res)
  if targetIndex < (nodes.length : ℤ) then
    some ⟨(i : ℤ), targetIndex,
      expf (-|(nodes.getD targetIndex.toNat default).frequency -
              targetFreq|)⟩
  else none

/-- Harmonic edges of one node (SpectralGraph.h lines 82 to 98): the
harmonics 2, 3 and 4 in that order. -/
def harmonicEdgesFor (expf : ℚ → ℚ) (nodes : List GraphNode) (res : ℚ)
    (i : ℕ) : List GraphEdge :=
  [2, 3, 4].filterMap (harmonicEdgeOpt expf nodes res i)

/-- Harmonic edge loop of buildGraph (SpectralGraph.h lines 80 to 99):
nodes 1 and upward in ascending order. -/
def harmonicEdges (expf : ℚ → ℚ) (nodes : List GraphNode)
    (res : ℚ) : List GraphEdge :=
  ((List.range nodes.length).drop 1).flatMap (harmonicEdgesFor expf nodes res)

/-- SpectralGraph.buildGraph (SpectralGraph.h lines 44 to 105): the method
first clears the previous nodes and edges, so the prior graph g never
flows into the result; then it creates one node per bin, all neighbor
edges, and all harmonic edges, in that order. -/
def buildGraph (expf : ℚ → ℚ) (g : SpectralGraph) (magnitudes : List ℚ)
    (sampleRate : ℚ) (fftSize : ℤ) : SpectralGraph :=
  let binResolution := sampleRate / (fftSize : ℚ)
  let nodes := buildNodes magnitudes binResolution
  { nodes := nodes
    edges := neighborEdges expf nodes ++
      harmonicEdges expf nodes binResolution }

/-- C5: buildGraph is a pure function of its arguments: it clears the
previous nodes and edges first, so calling it twice with identical
magnitudes, sample rate and fftSize produces identical node and edge
vectors both times, whatever the prior graph contents were, including when
the prior graph is itself the result of an earlier call. -/
theorem buildGraph_pure (expf : ℚ → ℚ) (g1 g2 : SpectralGraph)
    (magnitudes : List ℚ) (sampleRate : ℚ) (fftSize : ℤ) :
    buildGraph expf g1 magnitudes sampleRate fftSize =
      buildGraph expf g2 magnitudes sampleRate fftSize ∧
    buildGraph expf (buildGraph expf g1 magnitudes sampleRate fftSize)
        magnitudes sampleRate fftSize =
      buildGraph expf g2 magnitudes sampleRate fftSize :=
  ⟨rfl, rfl⟩

theorem getD_mem_of_lt {α : Type} (l : List α) (n : ℕ) (d : α)
    (h : n < l.length) : l.getD n d ∈ l := by
  rw [List.getD_eq_getElem?_getD, List.getElem?_eq_getElem h,
    Option.getD_some]
  exact List.getElem_mem h

theorem buildNodes_length (magnitudes : List ℚ) (res : ℚ) :
    (buildNodes magnitudes res).length = magnitudes.length := by
  simp [buildNodes]

theorem buildNodes_getD (magnitudes : List ℚ) (res : ℚ) (i : ℕ)
    (hi : i < magnitudes.length) :
    (buildNodes magnitudes res).getD i default =
      ⟨(i : ℤ), (i : ℚ) * res, magnitudes.getD i 0⟩ := by
  simp [buildNodes, List.getD_eq_getElem?_getD, List.getElem?_map,
    List.getElem?_range, hi]

theorem neighborEdges_length (expf : ℚ → ℚ) (nodes : List GraphNode) :
    (neighborEdges expf nodes).length = nodes.length - 1 := by
  simp [neighborEdges]

theorem neighborEdges_getD (expf : ℚ → ℚ) (nodes : List GraphNode) (i : ℕ)
    (hi : i + 1 < nodes.length) :
    (neighborEdges expf nodes).getD i default =
      ⟨(i : ℤ), (i : ℤ) + 1,
       expf (-|(nodes.getD i default).magnitude -
               (nodes.getD (i + 1) default).magnitude|)⟩ := by
  have hi2 : i < nodes.length - 1 := by omega
  simp [neighborEdges, List.getD_eq_getElem?_getD, List.getElem?_map,
    List.getElem?_range, hi2]

/-- C6: buildGraph creates one node per magnitude bin with node i at
frequency i times sampleRate over fftSize; the first numNodes minus one
edges are the neighbor edges (i, i + 1) in ascending index order with
weight expf of minus the absolute magnitude difference, so an all equal
spectrum gives every neighbor edge weight expf 0 = 1; the remaining edges
are the harmonic edges, for each node i from 1 upward in ascending order
and for each harmonic h = 2, 3, 4 in that order one edge to the bin
nearest frequency times h, weighted by expf of minus the absolute
difference between the target bin frequency and the exact harmonic, and
present exactly when the rounded target bin index is below the node
count. -/
theorem buildGraph_families (expf : ℚ → ℚ) (g0 : SpectralGraph)
    (magnitudes : List ℚ) (sampleRate : ℚ) (fftSize : ℤ)
    (hexp : expf 0 = 1) :
    (buildGraph expf g0 magnitudes sampleRate fftSize).nodes.length =
        magnitudes.length ∧
    (∀ i, i < magnitudes.length →
      (buildGraph expf g0 magnitudes sampleRate fftSize).nodes.getD i
          default =
        ⟨(i : ℤ), (i : ℚ) * (sampleRate / (fftSize : ℚ)),
         magnitudes.getD i 0⟩) ∧
    (∀ i, i + 1 < magnitudes.length →
      (buildGraph expf g0 magnitudes sampleRate fftSize).edges.getD i
          default =
        ⟨(i : ℤ), (i : ℤ) + 1,
         expf (-|magnitudes.getD i 0 - magnitudes.getD (i + 1) 0|)⟩) ∧
    (∀ c : ℚ, (∀ x ∈ magnitudes, x = c) →
      ∀ i, i + 1 < magnitudes.length →
        ((buildGraph expf g0 magnitudes sampleRate fftSize).edges.getD i
            default).weight = 1) ∧
    ((buildGraph expf g0 magnitudes sampleRate fftSize).edges.drop
        (magnitudes.length - 1) =
      ((List.range magnitudes.length).drop 1).flatMap
        (harmonicEdgesFor expf
          (buildNodes magnitudes (sampleRate / (fftSize : ℚ)))
          (sampleRate / (fftSize : ℚ)))) ∧
    ∀ (nodes : List GraphNode) (res : ℚ) (i : ℕ),
      harmonicEdgesFor expf nodes res i =
        (harmonicEdgeOpt expf nodes res i 2).toList ++
        (harmonicEdgeOpt expf nodes res i 3).toList ++
        (harmonicEdgeOpt expf nodes res i 4).toList := by
  set res := sampleRate / (fftSize : ℚ) with hres
  have hn3 : ∀ i, i + 1 < magnitudes.length →
      (buildGraph expf g0 magnitudes sampleRate fftSize).edges.getD i
          default =
        ⟨(i : ℤ), (i : ℤ) + 1,
         expf (-|magnitudes.getD i 0 - magnitudes.getD (i + 1) 0|)⟩ := by
    intro i hi
    have hlt : i < (neighborEdges expf (buildNodes magnitudes res)).length := by
      rw [neighborEdges_length, buildNodes_length]
      omega
    have happ : (buildGraph expf g0 magnitudes sampleRate fftSize).edges.getD
        i default =
        (neighborEdges expf (buildNodes magnitudes res)).getD i default := by
      show ((neighborEdges expf (buildNodes magnitudes res) ++
        harmonicEdges expf (buildNodes magnitudes res) res).getD i default) =
        _
      rw [List.getD_append _ _ _ _ hlt]
    rw [happ, neighborEdges_getD expf _ i
      (by rw [buildNodes_length]; omega)]
    rw [buildNodes_getD _ _ i (by omega), buildNodes_getD _ _ (i + 1) hi]
  refine ⟨by simp [buildGraph, buildNodes], ?_, hn3, ?_, ?_, ?_⟩
  · intro i hi
    show (buildNodes magnitudes res).getD i default = _
    exact buildNodes_getD magnitudes res i hi
  · intro c hc i hi
    rw [hn3 i hi]
    have h1 : magnitudes.getD i 0 = c :=
      hc _ (getD_mem_of_lt magnitudes i 0 (by omega))
    have h2 : magnitudes.getD (i + 1) 0 = c :=
      hc _ (getD_mem_of_lt magnitudes (i + 1) 0 hi)
    show expf (-|magnitudes.getD i 0 - magnitudes.getD (i + 1) 0|) = 1
    rw [h1, h2]
    simp [hexp]
  · show (neighborEdges expf (buildNodes magnitudes res) ++
      harmonicEdges expf (buildNodes magnitudes res) res).drop
        (magnitudes.length - 1) = _
    have hlen : (neighborEdges expf (buildNodes magnitudes res)).length =
        magnitudes.length - 1 := by
      rw [neighborEdges_length, buildNodes_length]
    rw [← hlen, List.drop_left]
    show harmonicEdges expf (buildNodes magnitudes res) res = _
    rw [harmonicEdges, buildNodes_length]
  · intro nodes r i
    cases h2 : harmonicEdgeOpt expf nodes r i 2 <;>
      cases h3 : harmonicEdgeOpt expf nodes r i 3 <;>
        cases h4 : harmonicEdgeOpt expf nodes r i 4 <;>
          simp [harmonicEdgesFor, List.filterMap_cons, h2, h3, h4]

theorem buildGraph_families_witness :
    (buildGraph (fun _ => 1) ⟨[], []⟩ [1, 1] 1 1).nodes.length = 2 ∧
    ((buildGraph (fun _ => 1) ⟨[], []⟩ [1, 1] 1 1).edges.getD 0
        default).weight = 1 := by
  have h := buildGraph_families (fun _ => 1) ⟨[], []⟩ [1, 1] 1 1 rfl
  exact ⟨by simpa using h.1, h.2.2.2.1 1 (by decide) 0 (by norm_num)⟩

/-- Cluster energy vector of the analysis worker (Graphverb.cpp lines 39
to 51): entry j accumulates the magnitudes of the nodes assigned to
cluster j and is divided by the member count when that count is positive,
and set to exactly 0 otherwise, so a division by a zero count never
happens. -/
def clusterEnergies (nodes : List GraphNode) (assignments : List ℕ)
    (k : ℕ) : List ℚ :=
  (List.range k).map fun j =>
    let ms := (membersOf nodes assignments j).map GraphNode.magnitude
    if 0 < ms.length then ms.sum / (ms.length : ℚ) else 0

/-- Cluster energy entry of the GraphVerb.cpp variant (lines 71 to 83):
the vector is resized but not cleared before the accumulation, so entry j
starts from the stale previous entry; an empty cluster is still set to
exactly 0 by the zero count guard. -/
def clusterEnergiesCarry (prev : List ℚ) (nodes : List GraphNode)
    (assignments : List ℕ) (k : ℕ) : List ℚ :=
  (List.range k).map fun j =>
    let ms := (membersOf nodes assignments j).map GraphNode.magnitude
    if 0 < ms.length then (prev.getD j 0 + ms.sum) / (ms.length : ℚ)
    else 0

/-- Energy normalisation (Graphverb.cpp lines 52 to 58 and GraphVerb.cpp
lines 85 to 91): divide every entry by the total exactly when the total is
strictly positive, otherwise leave the vector unchanged. -/
def normalizeEnergies (es : List ℚ) : List ℚ :=
  if 0 < es.sum then es.map (fun e => e / es.sum) else es

theorem sum_map_div (l : List ℚ) (s : ℚ) :
    (l.map fun e => e / s).sum = l.sum / s := by
  induction l with
  | nil => simp
  | cons a l ih => simp [ih, add_div]

theorem membersOf_subset (nodes : List GraphNode) (assignments : List ℕ)
    (j : ℕ) : ∀ nd ∈ membersOf nodes assignments j, nd ∈ nodes := by
  intro nd hnd
  obtain ⟨p, hp, hpe⟩ := List.mem_map.mp hnd
  have hz := List.mem_of_mem_filter hp
  exact hpe ▸ (List.of_mem_zip hz).1

/-- C4: the per cluster energy vector computed each frame has only non
negative entries when the node magnitudes are non negative (which FFT
magnitudes are); an empty cluster entry is exactly 0 and a division by a
zero count never happens; when the total is strictly positive the vector
is divided by it and then sums to exactly 1, and otherwise, in particular
when all entries are zero, it is left unchanged.  The carry variant of
GraphVerb.cpp satisfies the same bounds when the stale previous entries
are non negative. -/
theorem clusterEnergies_spec (nodes : List GraphNode)
    (assignments : List ℕ) (k : ℕ) (prev : List ℚ)
    (hmag : ∀ nd ∈ nodes, 0 ≤ nd.magnitude)
    (hprev : ∀ e ∈ prev, 0 ≤ e) :
    (∀ e ∈ clusterEnergies nodes assignments k, 0 ≤ e) ∧
    (∀ j, j < k → membersOf nodes assignments j = [] →
      (clusterEnergies nodes assignments k).getD j 0 = 0) ∧
    (∀ e ∈ clusterEnergiesCarry prev nodes assignments k, 0 ≤ e) ∧
    (∀ j, j < k → membersOf nodes assignments j = [] →
      (clusterEnergiesCarry prev nodes assignments k).getD j 0 = 0) ∧
    (∀ es : List ℚ, 0 < es.sum → (normalizeEnergies es).sum = 1) ∧
    ∀ es : List ℚ, ¬0 < es.sum → normalizeEnergies es = es := by
  have hms : ∀ j, ∀ m ∈ (membersOf nodes assignments j).map
      GraphNode.magnitude, 0 ≤ m := by
    intro j m hm
    obtain ⟨nd, hnd, hnde⟩ := List.mem_map.mp hm
    exact hnde ▸ hmag nd (membersOf_subset nodes assignments j nd hnd)
  have hsum : ∀ j, 0 ≤ ((membersOf nodes assignments j).map
      GraphNode.magnitude).sum := fun j => List.sum_nonneg (hms j)
  have hprevD : ∀ j, 0 ≤ prev.getD j 0 := by
    intro j
    by_cases hj : j < prev.length
    · exact hprev _ (getD_mem_of_lt prev j 0 hj)
    · rw [List.getD_eq_getElem?_getD, List.getElem?_eq_none (by omega)]
      simp
  refine ⟨?_, ?_, ?_, ?_, ?_, ?_⟩
  · intro e he
    obtain ⟨j, _, hje⟩ := List.mem_map.mp he
    rw [← hje]
    dsimp only
    split
    · exact div_nonneg (hsum j) (by positivity)
    · exact le_refl 0
  · intro j hj hempty
    simp [clusterEnergies, List.getD_eq_getElem?_getD, List.getElem?_map,
      List.getElem?_range, hj, hempty]
  · intro e he
    obtain ⟨j, _, hje⟩ := List.mem_map.mp he
    rw [← hje]
    dsimp only
    split
    · exact div_nonneg (add_nonneg (hprevD j) (hsum j)) (by positivity)
    · exact le_refl 0
  · intro j hj hempty
    simp [clusterEnergiesCarry, List.getD_eq_getElem?_getD,
      List.getElem?_map, List.getElem?_range, hj, hempty]
  · intro es hpos
    rw [normalizeEnergies, if_pos hpos, sum_map_div,
      div_self (ne_of_gt hpos)]
  · intro es hneg
    rw [normalizeEnergies, if_neg hneg]

theorem clusterEnergies_spec_witness :
    (∀ e ∈ clusterEnergies [⟨0, 0, 1⟩] [0] 2, 0 ≤ e) ∧
    (∀ j, j < 2 → membersOf [⟨0, 0, 1⟩] [0] j = [] →
      (clusterEnergies [⟨0, 0, 1⟩] [0] 2).getD j 0 = 0) ∧
    (∀ e ∈ clusterEnergiesCarry [1, 1] [⟨0, 0, 1⟩] [0] 2, 0 ≤ e) ∧
    (∀ j, j < 2 → membersOf [⟨0, 0, 1⟩] [0] j = [] →
      (clusterEnergiesCarry [1, 1] [⟨0, 0, 1⟩] [0] 2).getD j 0 = 0) ∧
    (∀ es : List ℚ, 0 < es.sum → (normalizeEnergies es).sum = 1) ∧
    ∀ es : List ℚ, ¬0 < es.sum → normalizeEnergies es = es :=
  clusterEnergies_spec [⟨0, 0, 1⟩] [0] 2 [1, 1] (by decide) (by decide)

/-- Producer consumer queue of mono frames (ThreadSafeQueue.h): the mutex
only guards the underlying std queue, modelled as the list of queued
items, front first. -/
structure TSQueue (α : Type) where
  items : List α
deriving DecidableEq

/-- ThreadSafeQueue.push (ThreadSafeQueue.h lines 18 to 21): always
enqueue at the back; there is no capacity check of any kind. -/
def TSQueue.push {α : Type} (q : TSQueue α) (x : α) : TSQueue α :=
  ⟨q.items ++ [x]⟩

/-- ThreadSafeQueue.pop (ThreadSafeQueue.h lines 28 to 35): none when the
queue is empty, otherwise the front element and the remaining queue. -/
def TSQueue.pop {α : Type} (q : TSQueue α) : Option (α × TSQueue α) :=
  match q.items with
  | [] => none
  | x :: rest => some (x, ⟨rest⟩)

/-- m pushes of the same frame into an initially empty queue. -/
def pushRep (x : List ℚ) (m : ℕ) : TSQueue (List ℚ) :=
  match m with
  | 0 => ⟨[]⟩
  | m + 1 => (pushRep x m).push x

theorem pushRep_length (x : List ℚ) (m : ℕ) :
    (pushRep x m).items.length = m := by
  induction m with
  | zero => rfl
  | succ m ih => simp [pushRep, TSQueue.push, ih]

/-- C9 counterexample: the claim that some fixed capacity C bounds the
queue under every push and pop sequence is false, since m pushes with no
pops leave exactly m elements and m can exceed any candidate C. -/
theorem tsqueue_unbounded : ¬∃ C : ℕ, ∀ m : ℕ,
    (pushRep [] m).items.length ≤ C := by
  rintro ⟨C, hC⟩
  have h := hC (C + 1)
  rw [pushRep_length] at h
  omega

/-- C9 (amended): the producer consumer channel is a mutex protected FIFO
queue with no capacity bound: push always succeeds and grows the queue by
exactly one element at the back, pop removes the front element exactly
when the queue is nonempty and reports failure on an empty queue, and m
pushes without pops leave exactly m queued frames. -/
theorem tsqueue_push_pop_spec (q : TSQueue (List ℚ)) (x front : List ℚ)
    (rest : List (List ℚ)) (m : ℕ) :
    (q.push x).items = q.items ++ [x] ∧
    (q.push x).items.length = q.items.length + 1 ∧
    TSQueue.pop (⟨[]⟩ : TSQueue (List ℚ)) = none ∧
    TSQueue.pop (⟨front :: rest⟩ : TSQueue (List ℚ)) =
      some (front, ⟨rest⟩) ∧
    (pushRep x m).items.length = m :=
  ⟨rfl, by simp [TSQueue.push], rfl, rfl, pushRep_length x m⟩

/-- Linear gain stage of Graphverb.cpp lines 175 to 177: jmap sends the
gain parameter in 0 to 1 to the decibel range -60 to 12, and the juce
decibel conversion returns 10 to the power dB over 20 above the -100 dB
floor and 0 at or below it.  Floats are modelled as reals here because the
stage is transcendental. -/
noncomputable def linearGain (gain : ℝ) : ℝ :=
  let dB := -60 + gain * 72
  if -100 < dB then (10 : ℝ) ^ (dB / 20) else 0

/-- Wet sample accumulated over the twelve cluster reverbs (Graphverb.cpp
lines 152 to 167): each cluster contributes its energy weight times the
output of its opaque reverb unit, whose value is unconstrained here. -/
noncomputable def wetSample (weights reverbOut : Fin 12 → ℝ) : ℝ :=
  ∑ i, weights i * reverbOut i

/-- Final mix of Graphverb.cpp lines 172 to 185: the dry level is one
minus liveliness, the dry wet mix is scaled by the linear gain, and the
tanh soft clip stage writes the output sample last. -/
noncomputable def graphverbOutSample (liveliness gain dry wet : ℝ) : ℝ :=
  Real.tanh (((1 - liveliness) * dry + (1 - (1 - liveliness)) * wet) *
    linearGain gain)

/-- Final mix of GraphVerb.cpp lines 126 to 134: dry wet mix followed by
the tanh soft clip, with no gain stage in this variant. -/
noncomputable def graphVerbAltOutSample (dryLevel dry wet : ℝ) : ℝ :=
  Real.tanh (dryLevel * dry + (1 - dryLevel) * wet)

theorem abs_tanh_lt_one (x : ℝ) : |Real.tanh x| < 1 := by
  rw [Real.tanh_eq_sinh_div_cosh, abs_div,
    abs_of_pos (Real.cosh_pos x), div_lt_one (Real.cosh_pos x)]
  refine abs_lt_of_sq_lt_sq ?_ (Real.cosh_pos x).le
  rw [Real.cosh_sq]
  nlinarith [sq_nonneg (Real.sinh x)]

/-- C2: for any input buffer with samples bounded by one in absolute value
and any parameter configuration, every sample written to the output buffer
by processBlock is a real number in the closed interval from -1 to 1,
because the mixed signal passes through the tanh soft clip stage last.
Both processor variants are covered, and the bound holds whatever the
opaque reverb outputs and cluster energies contribute to the wet sum; in
this real number model every value is finite by construction, which is the
faithful reading of the finiteness clause. -/
theorem processBlock_output_bounded (liveliness gain dry dryLevel
    dry2 : ℝ) (weights reverbOut weights2 reverbOut2 : Fin 12 → ℝ)
    (hdry : |dry| ≤ 1) (hdry2 : |dry2| ≤ 1) :
    (-1 ≤ graphverbOutSample liveliness gain dry
        (wetSample weights reverbOut) ∧
      graphverbOutSample liveliness gain dry
        (wetSample weights reverbOut) ≤ 1) ∧
    (-1 ≤ graphVerbAltOutSample dryLevel dry2
        (wetSample weights2 reverbOut2) ∧
      graphVerbAltOutSample dryLevel dry2
        (wetSample weights2 reverbOut2) ≤ 1) := by
  constructor
  · have h := abs_tanh_lt_one
      (((1 - liveliness) * dry + (1 - (1 - liveliness)) *
        wetSample weights reverbOut) * linearGain gain)
    rw [abs_lt] at h
    exact ⟨le_of_lt h.1, le_of_lt h.2⟩
  · have h := abs_tanh_lt_one
      (dryLevel * dry2 + (1 - dryLevel) * wetSample weights2 reverbOut2)
    rw [abs_lt] at h
    exact ⟨le_of_lt h.1, le_of_lt h.2⟩

theorem processBlock_output_bounded_witness :
    (-1 ≤ graphverbOutSample 0 1 0 (wetSample (fun _ => 0) (fun _ => 0)) ∧
      graphverbOutSample 0 1 0 (wetSample (fun _ => 0) (fun _ => 0)) ≤ 1) ∧
    (-1 ≤ graphVerbAltOutSample 0 0
        (wetSample (fun _ => 0) (fun _ => 0)) ∧
      graphVerbAltOutSample 0 0
        (wetSample (fun _ => 0) (fun _ => 0)) ≤ 1) :=
  processBlock_output_bounded 0 1 0 0 0 (fun _ => 0) (fun _ => 0)
    (fun _ => 0) (fun _ => 0) (by norm_num) (by norm_num)
